import Mathlib

/-!
Verification of the movie watch-list manager (`script.js`).

The catalog core is embedded shallowly: movie records are a structure,
the mutable global `movies` array becomes explicit list-passing, and the
DOM/presentation layer is dropped (only the error identity of each hint
is kept).  JavaScript strings are modelled by Lean `String`, with the
primitive operations (`trim`, `split(" ")`, `join(" ")`, per-character
`toLowerCase`/`toUpperCase`) spelled out structurally on `List Char` so
that every definition evaluates inside the kernel; per-character casing
is faithful on the ASCII titles involved.  The raw year text box is
modelled by `Option Int`: `none` is the empty input and `some n` a
non-empty input whose `Number(...)` conversion is the integer `n`;
JavaScript truthiness of the converted year (`null` and `0` are falsy)
is modelled explicitly.
-/

namespace Bellezza

/-- One movie record: `{ id, title, year, watched }` from `script.js`. -/
structure Movie where
  id : String
  title : String
  year : Option Int
  watched : Bool
deriving DecidableEq, Repr

/-- Per-character lowering, modelling JS `String.prototype.toLowerCase`. -/
def lowerStr (s : String) : String := String.mk (s.data.map Char.toLower)

/-- Models JS `String.prototype.trim`: strip whitespace at both ends. -/
def jsTrim (cs : List Char) : List Char :=
  ((cs.dropWhile Char.isWhitespace).reverse.dropWhile Char.isWhitespace).reverse

/-- Models `t.includes("  ")`: some two consecutive spaces occur. -/
def hasTwoSpaces : List Char → Bool
  | a :: b :: rest => (a = ' ' && b = ' ') || hasTwoSpaces (b :: rest)
  | _ => false

/-- Models one call `t.replace(/ {2,}/g, " ")`: every maximal run of two
or more spaces becomes a single space. -/
def collapseRuns : List Char → List Char
  | [] => []
  | [c] => [c]
  | a :: b :: rest =>
    if a = ' ' && b = ' ' then collapseRuns (b :: rest)
    else a :: collapseRuns (b :: rest)

/-- The `while (t.includes("  "))` loop of `sanitizeTitle`, run with
explicit fuel; `collapseRuns` reaches a fixed point after one pass
(`hasTwoSpaces_collapseRuns` below), so `length + 1` fuel is enough. -/
def collapseLoopFuel : Nat → List Char → List Char
  | 0, cs => cs
  | fuel + 1, cs =>
    if hasTwoSpaces cs then collapseLoopFuel fuel (collapseRuns cs) else cs

/-- The space-collapsing `while` loop of `sanitizeTitle`. -/
def collapseLoop (cs : List Char) : List Char :=
  collapseLoopFuel (cs.length + 1) cs

/-- Models `t.split(" ")` (single-space separator; `"".split(" ")` is `[""]`). -/
def splitSp : List Char → List (List Char)
  | [] => [[]]
  | c :: rest =>
    if c = ' ' then [] :: splitSp rest
    else
      match splitSp rest with
      | [] => [[c]]
      | w :: ws => (c :: w) :: ws

/-- Models `words.join(" ")`. -/
def joinSp : List (List Char) → List Char
  | [] => []
  | [w] => w
  | w :: ws => w ++ ' ' :: joinSp ws

/-- Models `word[0] ? word[0].toUpperCase() + word.slice(1).toLowerCase() : ""`. -/
def capWord : List Char → List Char
  | [] => []
  | c :: rest => c.toUpper :: rest.map Char.toLower

/-- `sanitizeTitle` from `script.js`: guard on falsy input, trim,
collapse interior space runs in a while loop, then title-case each
space-separated word. -/
def sanitizeTitle (raw : String) : String :=
  if raw = "" then ""
  else String.mk (joinSp (((splitSp (collapseLoop (jsTrim raw.data)))).map capWord))

/-- JS truthiness of the parsed year `yr : number | null`
(`null`, and the number `0`, are falsy). -/
def yearTruthy : Option Int → Bool
  | none => false
  | some n => decide (n ≠ 0)

/-- The validation-error taxonomy of §7 (`showHint` carries only the
message; the variant identifies which early return fired). -/
inductive VErr where
  | emptyTitle
  | yearOutOfRange
  | duplicate
deriving DecidableEq, Repr

/-- Models `(yr < 1888 || yr > 2100)`; this comparison sits behind the
short-circuiting `yr &&`, so the `null` branch is never reached. -/
def yearOutsideRange : Option Int → Bool
  | none => false
  | some n => decide (n < 1888) || decide (n > 2100)

/-- `addMovie(title, year)` from `script.js`.  `year : Option Int` is
the parsed `yr = year ? Number(year) : null`; `newId` stands for the
`cryptoRandomId()` draw made on the push.  Returns the new catalog and,
on an early return, which validation failed (the catalog is then
returned unchanged, matching the no-op). -/
def addMovie (movies : List Movie) (title : String) (year : Option Int)
    (newId : String) : List Movie × Option VErr :=
  let cleanTitle := sanitizeTitle title
  let yr := year
  if cleanTitle = "" then (movies, some .emptyTitle)
  else if yearTruthy yr && yearOutsideRange yr then
    (movies, some .yearOutOfRange)
  else if movies.any (fun m =>
      (lowerStr m.title == lowerStr cleanTitle) &&
      (yearTruthy m.year == yearTruthy yr) && (m.year == yr)) then
    (movies, some .duplicate)
  else (movies ++ [⟨newId, cleanTitle, yr, false⟩], none)

/-- `toggleWatched(id)` from `script.js`: `movies.find(x => x.id === id)`
returns the first match, whose `watched` flag is flipped in place; a
miss is a silent no-op. -/
def toggleWatched : List Movie → String → List Movie
  | [], _ => []
  | m :: rest, i =>
    if m.id = i then { m with watched := !m.watched } :: rest
    else m :: toggleWatched rest i

/-- `removeMovie(id)` from `script.js`: `movies.filter(m => m.id !== id)`. -/
def removeMovie (movies : List Movie) (i : String) : List Movie :=
  movies.filter (fun m => m.id != i)

/-- Models `s.includes(q)` on the character lists of `s` and `q`. -/
def inclChars (q : List Char) : List Char → Bool
  | [] => q.isEmpty
  | c :: t => q.isPrefixOf (c :: t) || inclChars q t

/-- Models `s.includes(q)` for strings. -/
def strIncludes (s q : String) : Bool := inclChars q.data s.data

/-- `getVisibleMovies()` from `script.js`, with the globals
`currentFilter` and `currentQuery` passed explicitly. -/
def getVisibleMovies (movies : List Movie) (currentFilter currentQuery : String) :
    List Movie :=
  let q := lowerStr (String.mk (jsTrim currentQuery.data))
  movies.filter (fun m =>
    let matchesFilter :=
      currentFilter == "all" ||
      (currentFilter == "watched" && m.watched) ||
      (currentFilter == "unwatched" && !m.watched)
    let matchesQuery := (q == "") || strIncludes (lowerStr m.title) q
    matchesFilter && matchesQuery)

/-- The stats triple rendered by `updateStats`. -/
structure Stats where
  total : Nat
  watchedCount : Nat
  remaining : Nat
deriving DecidableEq, Repr

/-- `updateStats()` from `script.js`: the `for` loop counts the watched
records of the full catalog; `total` is the length and
`remaining = total - watched`. -/
def updateStats (movies : List Movie) : Stats :=
  let watched := movies.foldl (fun acc m => if m.watched then acc + 1 else acc) 0
  let total := movies.length
  { total := total, watchedCount := watched, remaining := total - watched }

/-- The seed catalog of `script.js`; `g k` is the value of the `k`-th
`cryptoRandomId()` draw (the seed array makes draws 0, 1, 2). -/
def seedMovies (g : Nat → String) : List Movie :=
  [ ⟨g 0, "The Iron Giant", some 1999, false⟩,
    ⟨g 1, "Get Out", some 2017, true⟩,
    ⟨g 2, "Your Name", some 2016, false⟩ ]

/-- Session states reachable from the seed data by the three mutators.
The `Nat` component counts the `cryptoRandomId()` draws made so far
(three for the seed, one more per successful add; failed adds return
before the push and leave the state untouched). -/
inductive Reach (g : Nat → String) : List Movie → Nat → Prop where
  | seed : Reach g (seedMovies g) 3
  | add {ms n ms'} (title : String) (year : Option Int) :
      Reach g ms n → addMovie ms title year (g n) = (ms', none) →
      Reach g ms' (n + 1)
  | toggle {ms n} (i : String) : Reach g ms n → Reach g (toggleWatched ms i) n
  | remove {ms n} (i : String) : Reach g ms n → Reach g (removeMovie ms i) n

/-- The interior-space collapse as worded in spec §4.1 rule 2, written
as a right fold: a space is dropped exactly when a space follows it. -/
def specCollapse (cs : List Char) : List Char :=
  cs.foldr (fun c acc => if c = ' ' ∧ acc.head? = some ' ' then acc else c :: acc) []

/-- Title normalization as worded in spec §4.1, for comparison with
`sanitizeTitle`: trim, collapse space runs, title-case the words; empty
input or input that trims to empty yields the empty string. -/
def specNormalize (raw : String) : String :=
  if jsTrim raw.data = [] then ""
  else String.mk (joinSp ((splitSp (specCollapse (jsTrim raw.data))).map capWord))

/-- The year values `addMovie` can actually store: absent, the integer 0
(a non-empty raw input converting to `0` slips past the truthiness
guard), or an integer in `[1888, 2100]`. -/
def goodYear : Option Int → Bool
  | none => true
  | some n => decide (n = 0) || (decide (1888 ≤ n) && decide (n ≤ 2100))

/-- No two records share the same (lowercased-title, year) pair. -/
def DistinctKeys (ms : List Movie) : Prop :=
  List.Pairwise (fun a b => ¬(lowerStr a.title = lowerStr b.title ∧ a.year = b.year)) ms

/-- Catalog invariant maintained by every operation: stored titles are
non-empty, stored years are `goodYear`, and keys are pairwise distinct. -/
def StoreInv (ms : List Movie) : Prop :=
  (∀ m ∈ ms, m.title ≠ "" ∧ goodYear m.year = true) ∧ DistinctKeys ms

/-- The status-filter clause of spec §4.5: `all` always passes,
`watched` requires `watched == true`, `unwatched` requires
`watched == false`. -/
def statusPasses (filt : String) (m : Movie) : Prop :=
  filt = "all" ∨ (filt = "watched" ∧ m.watched = true) ∨
    (filt = "unwatched" ∧ m.watched = false)

/-- The search clause of spec §4.5: empty search text always passes;
otherwise the lowercased title must contain the trimmed, lowercased
search text as a substring. -/
def searchPasses (query : String) (m : Movie) : Prop :=
  query = "" ∨
    strIncludes (lowerStr m.title) (lowerStr (String.mk (jsTrim query.data))) = true

instance (filt : String) (m : Movie) : Decidable (statusPasses filt m) := by
  unfold statusPasses; infer_instance

instance (query : String) (m : Movie) : Decidable (searchPasses query m) := by
  unfold searchPasses; infer_instance

/-- A concrete id stream used to instantiate reachable states. -/
def gW : Nat → String := fun n => String.mk (List.replicate (n + 1) 'w')

/-- A colliding id stream: `Math.random()` is not guaranteed to produce
distinct values, so the draws may all coincide. -/
def gDup : Nat → String := fun _ => "a1b2c3d4"

/-- A concrete injective id stream. -/
def gInj : Nat → String := fun n => String.mk (List.replicate n 'a')

lemma collapseRuns_head (c : Char) (r : List Char) :
    (collapseRuns (c :: r)).head? = some c := by
  induction r generalizing c with
  | nil => rfl
  | cons b rest ih =>
    by_cases h : c = ' ' ∧ b = ' '
    · obtain ⟨h1, h2⟩ := h
      subst h1; subst h2
      simp only [collapseRuns]
      rw [if_pos (by simp)]
      exact ih ' '
    · simp only [collapseRuns]
      rw [if_neg (by simpa using h)]
      rfl

lemma hasTwoSpaces_collapseRuns (cs : List Char) :
    hasTwoSpaces (collapseRuns cs) = false := by
  induction cs with
  | nil => rfl
  | cons a rest ih =>
    cases rest with
    | nil => rfl
    | cons b r =>
      by_cases h : a = ' ' ∧ b = ' '
      · obtain ⟨h1, h2⟩ := h
        subst h1; subst h2
        simp only [collapseRuns]
        rw [if_pos (by simp)]
        exact ih
      · have hcr : collapseRuns (a :: b :: r) = a :: collapseRuns (b :: r) := by
          simp only [collapseRuns]
          rw [if_neg (by simpa using h)]
        have hh := collapseRuns_head b r
        rcases hx : collapseRuns (b :: r) with _ | ⟨bb, tl⟩
        · rw [hx] at hh; cases hh
        · rw [hx] at hh
          have hb : bb = b := by simpa using hh
          subst hb
          rw [hcr, hx]
          simp only [hasTwoSpaces, Bool.or_eq_false_iff]
          refine ⟨by simpa using h, ?_⟩
          rw [← hx]; exact ih

lemma collapseRuns_no_doubles (cs : List Char) (h : hasTwoSpaces cs = false) :
    collapseRuns cs = cs := by
  induction cs with
  | nil => rfl
  | cons a rest ih =>
    cases rest with
    | nil => rfl
    | cons b r =>
      simp only [hasTwoSpaces, Bool.or_eq_false_iff] at h
      simp only [collapseRuns]
      rw [if_neg (by simpa using h.1), ih h.2]

lemma collapseLoopFuel_no (fuel : Nat) (cs : List Char)
    (h : hasTwoSpaces cs = false) : collapseLoopFuel fuel cs = cs := by
  cases fuel <;> simp [collapseLoopFuel, h]

lemma collapseLoop_eq (cs : List Char) : collapseLoop cs = collapseRuns cs := by
  unfold collapseLoop
  simp only [collapseLoopFuel]
  by_cases h : hasTwoSpaces cs = true
  · rw [if_pos h, collapseLoopFuel_no _ _ (hasTwoSpaces_collapseRuns cs)]
  · rw [if_neg h]
    exact (collapseRuns_no_doubles cs (by simpa using h)).symm

lemma collapseRuns_eq_spec (cs : List Char) : collapseRuns cs = specCollapse cs := by
  induction cs with
  | nil => rfl
  | cons a rest ih =>
    cases rest with
    | nil => simp [collapseRuns, specCollapse]
    | cons b r =>
      have hsp : specCollapse (b :: r) = collapseRuns (b :: r) := ih.symm
      have hh : (specCollapse (b :: r)).head? = some b := by
        rw [hsp]; exact collapseRuns_head b r
      have hstep : specCollapse (a :: b :: r) =
          if a = ' ' ∧ (specCollapse (b :: r)).head? = some ' ' then
            specCollapse (b :: r)
          else a :: specCollapse (b :: r) := rfl
      by_cases hcond : a = ' ' ∧ b = ' '
      · rw [hstep, if_pos ⟨hcond.1, by rw [hh, hcond.2]⟩, hsp]
        simp only [collapseRuns]
        rw [if_pos (by simp [hcond.1, hcond.2])]
      · rw [hstep, if_neg ?_, hsp]
        · simp only [collapseRuns]
          rw [if_neg (by simpa using hcond)]
        · rw [hh]
          rintro ⟨h1, h2⟩
          exact hcond ⟨h1, by simpa using h2⟩

/-- C5: `sanitizeTitle` returns exactly the result of the spec §4.1
pipeline — trim, collapse interior space runs, title-case the words,
with empty or whitespace-only input yielding the empty string — on
every input (and, being a function of its argument, is pure). -/
theorem sanitizeTitle_meets_spec (raw : String) :
    sanitizeTitle raw = specNormalize raw := by
  by_cases hr : raw = ""
  · subst hr; decide
  · unfold sanitizeTitle specNormalize
    rw [if_neg hr]
    by_cases ht : jsTrim raw.data = []
    · rw [if_pos ht, ht]; decide
    · rw [if_neg ht, collapseLoop_eq, collapseRuns_eq_spec]



lemma inclChars_nil (hay : List Char) : inclChars [] hay = true := by
  cases hay <;> simp [inclChars, List.isPrefixOf]

lemma strIncludes_empty (s : String) : strIncludes s "" = true := by
  unfold strIncludes
  simpa using inclChars_nil s.data

lemma statusPass_iff (filt : String) (m : Movie) :
    (filt == "all" || (filt == "watched" && m.watched) ||
      (filt == "unwatched" && !m.watched)) = true ↔ statusPasses filt m := by
  unfold statusPasses
  cases hw : m.watched <;> simp [hw]

lemma searchPass_iff (q : String) (m : Movie) :
    ((lowerStr (String.mk (jsTrim q.data)) == "") ||
      strIncludes (lowerStr m.title) (lowerStr (String.mk (jsTrim q.data)))) = true ↔
      searchPasses q m := by
  unfold searchPasses
  simp only [Bool.or_eq_true, beq_iff_eq]
  constructor
  · rintro (hq | hq)
    · exact Or.inr (by rw [hq]; exact strIncludes_empty _)
    · exact Or.inr hq
  · rintro (hq | hq)
    · subst hq; left; decide
    · exact Or.inr hq

/-- C6: the view projection returns exactly the records passing the
status filter AND the search clause, in catalog order; with filter
`all` and empty search text it is the whole catalog. -/
theorem getVisibleMovies_spec (ms : List Movie) (filt q : String) :
    (getVisibleMovies ms filt q).Sublist ms ∧
    (∀ m, m ∈ getVisibleMovies ms filt q ↔
      m ∈ ms ∧ statusPasses filt m ∧ searchPasses q m) ∧
    getVisibleMovies ms "all" "" = ms := by
  refine ⟨List.filter_sublist _, ?_, ?_⟩
  · intro m
    simp only [getVisibleMovies, List.mem_filter]
    constructor
    · rintro ⟨hm, hb⟩
      rw [Bool.and_eq_true] at hb
      exact ⟨hm, (statusPass_iff filt m).mp hb.1, (searchPass_iff q m).mp hb.2⟩
    · rintro ⟨hm, hs, hq⟩
      refine ⟨hm, ?_⟩
      rw [Bool.and_eq_true]
      exact ⟨(statusPass_iff filt m).mpr hs, (searchPass_iff q m).mpr hq⟩
  · exact List.filter_eq_self.mpr fun m _ => rfl

lemma foldl_watched_count (ms : List Movie) (acc : Nat) :
    ms.foldl (fun a m => if m.watched then a + 1 else a) acc =
      acc + (ms.filter (fun m => m.watched)).length := by
  induction ms generalizing acc with
  | nil => simp
  | cons m rest ih =>
    cases hw : m.watched <;> simp [List.filter_cons, hw, ih]
    omega

/-- C7: the stats are derived from the full catalog — `total` is the
catalog length, `watchedCount` counts the records with `watched = true`
— and `total = watchedCount + remaining` always holds. -/
theorem updateStats_spec (ms : List Movie) :
    (updateStats ms).total = (updateStats ms).watchedCount + (updateStats ms).remaining ∧
    (updateStats ms).total = ms.length ∧
    (updateStats ms).watchedCount = (ms.filter (fun m => m.watched)).length := by
  have hc := foldl_watched_count ms 0
  have hle : (ms.filter (fun m => m.watched)).length ≤ ms.length :=
    List.length_filter_le _ _
  refine ⟨?_, rfl, ?_⟩ <;> simp [updateStats, hc]
  omega

lemma toggleWatched_length (ms : List Movie) (i : String) :
    (toggleWatched ms i).length = ms.length := by
  induction ms with
  | nil => rfl
  | cons m rest ih => by_cases h : m.id = i <;> simp [toggleWatched, h, ih]

/-- C8: toggling the same id twice restores the catalog exactly (hence
each record's `watched` flag), and a toggle never changes the length. -/
theorem toggle_twice_restores (ms : List Movie) (i : String) :
    toggleWatched (toggleWatched ms i) i = ms ∧
    (toggleWatched ms i).length = ms.length := by
  refine ⟨?_, toggleWatched_length ms i⟩
  induction ms with
  | nil => rfl
  | cons m rest ih =>
    obtain ⟨mid, mt, my, mw⟩ := m
    by_cases h : mid = i
    · subst h
      simp [toggleWatched, Bool.not_not]
    · simp [toggleWatched, h, ih]

/-- C10: a toggle preserves every record's id, title and year, the
`watched` flag of every record whose id differs from the given one, and
the length and order of the catalog. -/
theorem toggle_frame (ms : List Movie) (i : String) :
    List.Forall₂ (fun a b => a.id = b.id ∧ a.title = b.title ∧ a.year = b.year ∧
      (a.id ≠ i → a.watched = b.watched)) ms (toggleWatched ms i) ∧
    (toggleWatched ms i).length = ms.length := by
  refine ⟨?_, toggleWatched_length ms i⟩
  induction ms with
  | nil => exact List.Forall₂.nil
  | cons m rest ih =>
    by_cases h : m.id = i
    · simp only [toggleWatched]
      rw [if_pos h]
      exact List.Forall₂.cons ⟨rfl, rfl, rfl, fun hne => absurd h hne⟩
        (List.forall₂_same.mpr fun x _ => ⟨rfl, rfl, rfl, fun _ => rfl⟩)
    · simp only [toggleWatched]
      rw [if_neg h]
      exact List.Forall₂.cons ⟨rfl, rfl, rfl, fun _ => rfl⟩ ih

/-- C9: removing an id that no stored record carries leaves the catalog
field-for-field identical. -/
theorem remove_missing_id_noop (ms : List Movie) (i : String)
    (h : ∀ m ∈ ms, m.id ≠ i) : removeMovie ms i = ms := by
  unfold removeMovie
  apply List.filter_eq_self.mpr
  intro m hm
  simpa using h m hm

/-- Witness for C9 at a concrete catalog and id. -/
theorem remove_missing_id_noop_witness :
    removeMovie (seedMovies gW) "q0q0" = seedMovies gW :=
  remove_missing_id_noop (seedMovies gW) "q0q0" (by decide)

lemma lowerStr_eq_empty {s : String} (h : lowerStr s = "") : s = "" := by
  obtain ⟨d⟩ := s
  unfold lowerStr at h
  have hd := congrArg String.data h
  simp only [String.data] at hd
  simp only [List.map_eq_nil_iff] at hd
  simp [hd]

lemma addMovie_ok {ms ms' : List Movie} {t : String} {y : Option Int} {nid : String}
    (h : addMovie ms t y nid = (ms', none)) :
    ms' = ms ++ [⟨nid, sanitizeTitle t, y, false⟩] ∧ sanitizeTitle t ≠ "" ∧
      goodYear y = true ∧
      ∀ m ∈ ms, ¬(lowerStr m.title = lowerStr (sanitizeTitle t) ∧ m.year = y) := by
  simp only [addMovie] at h
  split_ifs at h with h1 h2 h3
  · simp at h
  · simp at h
  · simp at h
  · simp only [Prod.mk.injEq, and_true] at h
    refine ⟨h.symm, h1, ?_, ?_⟩
    · cases y with
      | none => rfl
      | some k =>
        have h2' : ¬(k ≠ 0 ∧ (k < 1888 ∨ k > 2100)) := by
          simpa [yearTruthy, yearOutsideRange] using h2
        simp only [goodYear, Bool.or_eq_true, Bool.and_eq_true, decide_eq_true_eq]
        omega
    · intro m hm hkey
      apply h3
      rw [List.any_eq_true]
      refine ⟨m, hm, ?_⟩
      rw [hkey.1, hkey.2]
      simp

lemma toggle_map_eq {α : Type} (f : Movie → α)
    (hf : ∀ m b, f { m with watched := b } = f m) (ms : List Movie) (i : String) :
    (toggleWatched ms i).map f = ms.map f := by
  induction ms with
  | nil => rfl
  | cons m rest ih =>
    by_cases h : m.id = i
    · simp only [toggleWatched]
      rw [if_pos h]
      simp only [List.map_cons]
      rw [hf m (!m.watched)]
    · simp only [toggleWatched]
      rw [if_neg h]
      simp only [List.map_cons, ih]

lemma mem_toggle {ms : List Movie} {i : String} {m' : Movie}
    (h : m' ∈ toggleWatched ms i) :
    ∃ m ∈ ms, m'.id = m.id ∧ m'.title = m.title ∧ m'.year = m.year := by
  induction ms with
  | nil => cases h
  | cons m rest ih =>
    by_cases hid : m.id = i
    · simp only [toggleWatched] at h
      rw [if_pos hid] at h
      rcases List.mem_cons.mp h with rfl | hmem
      · exact ⟨m, List.mem_cons_self m rest, rfl, rfl, rfl⟩
      · exact ⟨m', List.mem_cons_of_mem m hmem, rfl, rfl, rfl⟩
    · simp only [toggleWatched] at h
      rw [if_neg hid] at h
      rcases List.mem_cons.mp h with rfl | hmem
      · exact ⟨m', List.mem_cons_self m' rest, rfl, rfl, rfl⟩
      · obtain ⟨m0, hm0, e1, e2, e3⟩ := ih hmem
        exact ⟨m0, List.mem_cons_of_mem m hm0, e1, e2, e3⟩

lemma distinctKeys_toggle {ms : List Movie} {i : String} (h : DistinctKeys ms) :
    DistinctKeys (toggleWatched ms i) := by
  unfold DistinctKeys at h ⊢
  induction ms with
  | nil => exact List.Pairwise.nil
  | cons m rest ih =>
    rw [List.pairwise_cons] at h
    by_cases hid : m.id = i
    · simp only [toggleWatched]
      rw [if_pos hid, List.pairwise_cons]
      exact ⟨fun b hb => h.1 b hb, h.2⟩
    · simp only [toggleWatched]
      rw [if_neg hid, List.pairwise_cons]
      refine ⟨?_, ih h.2⟩
      intro b hb
      obtain ⟨m0, hm0, -, e2, e3⟩ := mem_toggle hb
      rw [e2, e3]
      exact h.1 m0 hm0

lemma reach_inv {g : Nat → String} {ms : List Movie} {n : Nat}
    (h : Reach g ms n) : StoreInv ms := by
  induction h with
  | seed =>
    constructor
    · intro m hm
      simp only [seedMovies, List.mem_cons, List.not_mem_nil, or_false] at hm
      rcases hm with rfl | rfl | rfl <;> (dsimp only; exact ⟨by decide, by decide⟩)
    · unfold DistinctKeys seedMovies
      simp only [List.pairwise_cons, List.mem_cons, List.not_mem_nil, or_false,
        List.mem_singleton]
      refine ⟨?_, ?_, ?_⟩
      · rintro b (rfl | rfl) <;> (dsimp only; decide)
      · rintro b rfl
        dsimp only
        decide
      · simp
  | add t y hr hadd ih =>
    obtain ⟨rfl, hclean, hgood, hnodup⟩ := addMovie_ok hadd
    constructor
    · intro m hm
      rcases List.mem_append.mp hm with hm | hm
      · exact ih.1 m hm
      · simp only [List.mem_singleton] at hm
        subst hm
        exact ⟨hclean, hgood⟩
    · unfold DistinctKeys
      rw [List.pairwise_append]
      refine ⟨ih.2, List.pairwise_singleton _ _, ?_⟩
      intro a ha b hb
      simp only [List.mem_singleton] at hb
      subst hb
      exact fun hk => hnodup a ha hk
  | toggle i hr ih =>
    refine ⟨?_, distinctKeys_toggle ih.2⟩
    intro m' hm'
    obtain ⟨m, hm, -, e2, e3⟩ := mem_toggle hm'
    rw [e2, e3]
    exact ih.1 m hm
  | remove i hr ih =>
    refine ⟨?_, List.Pairwise.sublist (List.filter_sublist _) ih.2⟩
    intro m hm
    exact ih.1 m (List.mem_of_mem_filter hm)

/-- C3: on any reachable catalog, an add whose normalized title equals
an existing record's title case-insensitively and whose parsed year
equals that record's year fails with the Duplicate error and leaves the
catalog unchanged; and in every reachable state no two stored records
share the same (lowercased-title, year) pair. -/
theorem duplicate_add_rejected (g : Nat → String) (t : String) (y : Option Int)
    (nid : String) (ms : List Movie) (n : Nat) (h : Reach g ms n) :
    ((∃ m ∈ ms, lowerStr m.title = lowerStr (sanitizeTitle t) ∧ m.year = y) →
      addMovie ms t y nid = (ms, some VErr.duplicate)) ∧
    DistinctKeys ms := by
  have hinv := reach_inv h
  refine ⟨?_, hinv.2⟩
  rintro ⟨m, hm, hteq, hyeq⟩
  have hclean : ¬(sanitizeTitle t = "") := by
    intro hc
    rw [hc] at hteq
    exact (hinv.1 m hm).1 (lowerStr_eq_empty hteq)
  have hgood := (hinv.1 m hm).2
  have hyguard : (yearTruthy y && yearOutsideRange y) = false := by
    rw [← hyeq]
    cases hx : m.year with
    | none => rfl
    | some k =>
      rw [hx] at hgood
      rw [Bool.eq_false_iff]
      intro hcontra
      simp only [goodYear, Bool.or_eq_true, Bool.and_eq_true, decide_eq_true_eq] at hgood
      simp only [yearTruthy, yearOutsideRange, Bool.and_eq_true, Bool.or_eq_true,
        decide_eq_true_eq] at hcontra
      omega
  have hdup : (ms.any fun mm =>
      (lowerStr mm.title == lowerStr (sanitizeTitle t)) &&
      (yearTruthy mm.year == yearTruthy y) && (mm.year == y)) = true := by
    rw [List.any_eq_true]
    refine ⟨m, hm, ?_⟩
    rw [hteq, hyeq]
    simp
  simp only [addMovie]
  rw [if_neg hclean, if_neg (by simp [hyguard]), if_pos hdup]

/-- Witness for C3: the seed state is reachable, and re-adding
`" get   out "`-style input with the matching year is rejected as a
duplicate with the catalog unchanged. -/
theorem duplicate_add_rejected_witness :
    addMovie (seedMovies gW) "get   out" (some 2017) "w9" =
      (seedMovies gW, some VErr.duplicate) ∧ DistinctKeys (seedMovies gW) := by
  have h := duplicate_add_rejected gW "get   out" (some 2017) "w9" (seedMovies gW) 3
    Reach.seed
  exact ⟨h.1 ⟨⟨gW 1, "Get Out", some 2017, true⟩, by decide, by decide, rfl⟩, h.2⟩

/-- C4 counterexample: `cryptoRandomId` draws are not guaranteed
distinct; in an execution where `Math.random` repeats, already the
three seed records share one id, refuting session-wide id uniqueness. -/
theorem seed_ids_collide :
    ¬ List.Pairwise (fun a b => a.id ≠ b.id) (seedMovies gDup) := by decide

lemma reach_ids {g : Nat → String} {ms : List Movie} {n : Nat}
    (h : Reach g ms n) : ∀ m ∈ ms, m.id ∈ (List.range n).map g := by
  induction h with
  | seed =>
    intro m hm
    simp only [seedMovies, List.mem_cons, List.not_mem_nil, or_false] at hm
    rcases hm with rfl | rfl | rfl
    · exact List.mem_map.mpr ⟨0, List.mem_range.mpr (by omega), rfl⟩
    · exact List.mem_map.mpr ⟨1, List.mem_range.mpr (by omega), rfl⟩
    · exact List.mem_map.mpr ⟨2, List.mem_range.mpr (by omega), rfl⟩
  | add t y hr hadd ih =>
    obtain ⟨rfl, -, -, -⟩ := addMovie_ok hadd
    intro m hm
    rcases List.mem_append.mp hm with hm | hm
    · exact List.map_subset g (List.range_subset.mpr (Nat.le_succ _)) (ih m hm)
    · simp only [List.mem_singleton] at hm
      subst hm
      exact List.mem_map.mpr ⟨_, List.mem_range.mpr (Nat.lt_succ_self _), rfl⟩
  | toggle i hr ih =>
    intro m' hm'
    obtain ⟨m, hm, e1, -, -⟩ := mem_toggle hm'
    rw [e1]
    exact ih m hm
  | remove i hr ih =>
    intro m hm
    exact ih m (List.mem_of_mem_filter hm)

/-- C4 amended: provided the id generator never repeats a value, the
ids handed out across a session — `g 0`, `g 1`, `g 2` for the seed and
`g n` for the successful add made at draw count `n` — are pairwise
distinct, and every stored record carries one of them; removed records'
ids are never drawn again. -/
theorem ids_unique_of_injective_idgen (g : Nat → String)
    (hg : Function.Injective g) {ms : List Movie} {n : Nat} (h : Reach g ms n) :
    ((List.range n).map g).Nodup ∧ ∀ m ∈ ms, m.id ∈ (List.range n).map g :=
  ⟨(List.nodup_range n).map hg, reach_ids h⟩

lemma gInj_injective : Function.Injective gInj := by
  intro a b hab
  have h1 := congrArg String.data hab
  simp only [gInj] at h1
  have h2 := congrArg List.length h1
  simpa using h2

/-- Witness for C4's amended claim at the seed state with a concrete
injective id stream. -/
theorem ids_unique_witness :
    ((List.range 3).map gInj).Nodup ∧
      ∀ m ∈ seedMovies gInj, m.id ∈ (List.range 3).map gInj :=
  ids_unique_of_injective_idgen gInj gInj_injective Reach.seed

/-- C1 failing input: a non-empty raw year converting to the integer 0
lies outside [1888, 2100], yet `addMovie` does not fail with
YearOutOfRange — the record is appended, because `0` is falsy and the
`yr && ...` guard is skipped. -/
theorem year_zero_add_accepted :
    addMovie (seedMovies gW) "Nosferatu" (some 0) (gW 3) =
      (seedMovies gW ++ [⟨gW 3, "Nosferatu", some 0, false⟩], none) := by decide

/-- C2 failing state: a state reachable from the seed data by one add
contains a stored record whose year is `some 0` — neither null nor in
[1888, 2100]. -/
theorem reachable_record_year_zero :
    ∃ ms, Reach gW ms 4 ∧ ∃ m ∈ ms, m.year = some 0 := by
  refine ⟨seedMovies gW ++ [⟨gW 3, "Amadeus", some 0, false⟩],
    Reach.add "Amadeus" (some 0) Reach.seed (by decide),
    ⟨gW 3, "Amadeus", some 0, false⟩, by decide, rfl⟩

end Bellezza
